import Mathlib

/-!
Verification of the registry aggregation pipeline: identity normalization,
cross-source deduplication, unified-record projection, retrying HTTP clients,
incremental synchronization state, and capability introspection.

Each Lean definition is a shallow embedding of the corresponding Python
function; network and filesystem effects are modelled by passing the
environment (per-attempt HTTP outcomes, per-endpoint query results, page
responses, clock samples) as explicit arguments.
-/

/-- Python truthiness of an optional string: None and the empty string are
falsy, every other string is truthy. -/
def pyTruthyOptStr : Option String → Bool
  | none => false
  | some s => !(s == "")

/-- Python truthiness of an optional natural number: None and 0 are falsy. -/
def pyTruthyOptNat : Option Nat → Bool
  | none => false
  | some n => !(n == 0)

namespace MergeRegistries

/-- Separator characters accepted before a version suffix, the character
class in the version-stripping pattern of normalize_server_name. -/
def isVersionSep (c : Char) : Bool := c == ':' || c == '-' || c == '_'

/-- Characters whose runs are collapsed to a single dash by
normalize_server_name. -/
def isRunSep (c : Char) : Bool := c == '-' || c == '_' || c == '/'

/-- Recognizer for the tail of a version suffix: one or more digits followed
by any number of dot-digit groups. The flag records whether the current
digit group already contains at least one digit. -/
def versionDigits : List Char → Bool → Bool
  | [], seen => seen
  | c :: cs, seen =>
    if c.isDigit then versionDigits cs true
    else if c == '.' && seen then versionDigits cs false
    else false

/-- Recognizer for a whole version suffix: a separator, an optional letter v,
then digits and dot-digit groups running to the end of the string. -/
def matchVersionSuffix : List Char → Bool
  | [] => false
  | c :: cs =>
    isVersionSep c &&
      (versionDigits cs false ||
        (match cs with
         | 'v' :: cs2 => versionDigits cs2 false
         | _ => false))

/-- Removal of the version suffix: the regex substitution anchored at the end
of the string removes the leftmost match that extends to the end, which is the
longest suffix recognized by matchVersionSuffix. -/
def stripVersionFrom : List Char → List Char
  | [] => []
  | c :: cs => if matchVersionSuffix (c :: cs) then [] else c :: stripVersionFrom cs

/-- Collapse of every maximal run of dash, underscore and slash into one
dash, the second substitution of normalize_server_name. The flag records
whether the previous character belonged to a run. -/
def collapseSeparators : List Char → Bool → List Char
  | [], _ => []
  | c :: cs, prevSep =>
    if isRunSep c then
      if prevSep then collapseSeparators cs true
      else '-' :: collapseSeparators cs true
    else c :: collapseSeparators cs false

/-- Whitespace stripping at both ends, the Python strip call. -/
def pyStrip (cs : List Char) : List Char :=
  ((cs.dropWhile Char.isWhitespace).reverse.dropWhile Char.isWhitespace).reverse

/-- Removal of one trailing occurrence of a fixed suffix, the body of the
loop over known suffixes. -/
def stripOneSuffix (suffix : List Char) (cs : List Char) : List Char :=
  if suffix.isSuffixOf cs then cs.take (cs.length - suffix.length) else cs

/-- Sequential stripping of the known suffixes in source order: first -mcp,
then -server, then -mcp-server, each tested against the current value. -/
def stripKnownSuffixes (cs : List Char) : List Char :=
  stripOneSuffix "-mcp-server".toList
    (stripOneSuffix "-server".toList
      (stripOneSuffix "-mcp".toList cs))

/-- Embedding of normalize_server_name: lowercase and strip whitespace,
remove the trailing version suffix, collapse separator runs, then strip the
known suffixes sequentially. -/
def normalizeServerName (s : String) : String :=
  let n1 := pyStrip (s.toList.map Char.toLower)
  let n2 := stripVersionFrom n1
  let n3 := collapseSeparators n2 false
  (stripKnownSuffixes n3).asString

end MergeRegistries

namespace Retry

/-- Outcome of one HTTP attempt as seen by the retrying client: either a
response with a status code and an abstract JSON body, or a network-level
request failure. -/
inductive AttemptOutcome where
  | response (status : Nat) (body : Nat)
  | network
deriving DecidableEq

/-- Error surfaced by the retrying client: an HTTP error carrying its status,
a network error, or the generic exhaustion error raised when the loop ends
with no recorded error. -/
inductive FetchErr where
  | http (status : Nat)
  | network
  | exhausted
deriving DecidableEq

/-- Observable behaviour of one call to the retrying client: the final result,
the sequence of sleep delays in seconds, and the number of HTTP attempts. -/
structure RetryTrace where
  result : Except FetchErr Nat
  delays : List Nat
  attempts : Nat

end Retry

namespace PullOfficial

open Retry

/-- Retry budget of the official-registry client, MAX_RETRIES. -/
def maxRetries : Nat := 3

/-- Base backoff delay of the official-registry client in seconds,
RETRY_DELAY. -/
def retryDelay : Nat := 2

/-- Embedding of the loop body of MCPRegistryClient._request_with_retry. The
attempt counter starts at zero; a 2xx response returns its body, status 429
sleeps for retryDelay times two to the attempt and retries, a 5xx status or a
network failure sleeps for retryDelay times the one-based attempt number and
retries, and any other 4xx status is raised immediately. When the budget is
exhausted the last recorded error is raised. -/
def retryStep (outcomes : Nat → AttemptOutcome) :
    Nat → Nat → Option FetchErr → List Nat → RetryTrace
  | attempt, 0, lastError, delays =>
    { result := .error (lastError.getD .exhausted), delays := delays, attempts := attempt }
  | attempt, fuel + 1, lastError, delays =>
    match outcomes attempt with
    | .response st body =>
      if st < 400 then
        { result := .ok body, delays := delays, attempts := attempt + 1 }
      else if st = 429 then
        retryStep outcomes (attempt + 1) fuel (some (.http st))
          (delays ++ [retryDelay * 2 ^ attempt])
      else if 500 ≤ st then
        retryStep outcomes (attempt + 1) fuel (some (.http st))
          (delays ++ [retryDelay * (attempt + 1)])
      else
        { result := .error (.http st), delays := delays, attempts := attempt + 1 }
    | .network =>
      retryStep outcomes (attempt + 1) fuel (some .network)
        (delays ++ [retryDelay * (attempt + 1)])

/-- Embedding of MCPRegistryClient._request_with_retry, which runs the loop
body for maxRetries attempts starting from attempt zero with no recorded
error and no delays. -/
def requestWithRetry (outcomes : Nat → AttemptOutcome) : RetryTrace :=
  retryStep outcomes 0 maxRetries none []

/-- Sample environment answering 429 on every attempt. -/
def alwaysRateLimited : Nat → AttemptOutcome := fun _ => .response 429 7

end PullOfficial

namespace PullSmithery

open Retry

/-- Retry budget of the Smithery client, MAX_RETRIES. -/
def maxRetries : Nat := 3

/-- Base backoff delay of the Smithery client in seconds, RETRY_DELAY. -/
def retryDelay : Nat := 2

/-- Embedding of the loop body of SmitheryClient._request_with_retry, which
has the same branch structure as the official client. -/
def retryStep (outcomes : Nat → AttemptOutcome) :
    Nat → Nat → Option FetchErr → List Nat → RetryTrace
  | attempt, 0, lastError, delays =>
    { result := .error (lastError.getD .exhausted), delays := delays, attempts := attempt }
  | attempt, fuel + 1, lastError, delays =>
    match outcomes attempt with
    | .response st body =>
      if st < 400 then
        { result := .ok body, delays := delays, attempts := attempt + 1 }
      else if st = 429 then
        retryStep outcomes (attempt + 1) fuel (some (.http st))
          (delays ++ [retryDelay * 2 ^ attempt])
      else if 500 ≤ st then
        retryStep outcomes (attempt + 1) fuel (some (.http st))
          (delays ++ [retryDelay * (attempt + 1)])
      else
        { result := .error (.http st), delays := delays, attempts := attempt + 1 }
    | .network =>
      retryStep outcomes (attempt + 1) fuel (some .network)
        (delays ++ [retryDelay * (attempt + 1)])

/-- Embedding of SmitheryClient._request_with_retry. -/
def requestWithRetry (outcomes : Nat → AttemptOutcome) : RetryTrace :=
  retryStep outcomes 0 maxRetries none []

end PullSmithery

namespace RetryEquiv

open Retry

end RetryEquiv

namespace Introspect

/-- Capability descriptor returned by a list query; only the name field is
inspected downstream. -/
structure Cap where
  name : Option String
deriving DecidableEq

/-- Result of one JSON-RPC list query against one endpoint: the extracted
capability list on success, or the exception message string on failure. -/
inductive QueryResult where
  | ok (caps : List Cap)
  | err (msg : String)
deriving DecidableEq

/-- One remote endpoint of an entity together with the environment: the
outcome each of the three capability queries would produce against it. -/
structure Remote where
  type : Option String
  url : Option String
  toolsQ : QueryResult
  promptsQ : QueryResult
  resourcesQ : QueryResult
deriving DecidableEq

/-- One package entry of an entity. -/
structure Pkg where
  registryType : Option String
  identifier : Option String
  transportType : Option String
deriving DecidableEq

/-- Package summary recorded in the outcome for entities that only ship
local-process packages. -/
structure PkgInfo where
  registry : Option String
  identifier : Option String
  transport : Option String
deriving DecidableEq

/-- One entity as passed to introspect: its name, version, ordered remote
endpoints, and packages. -/
structure Entity where
  name : Option String
  version : Option String
  remotes : List Remote
  packages : List Pkg
deriving DecidableEq

/-- Result dictionary built by introspect. A none in endpointUrl or packages
models the key being absent from the dictionary. -/
structure Outcome where
  serverName : String
  serverVersion : Option String
  success : Bool
  tools : List Cap
  prompts : List Cap
  resources : List Cap
  transportUsed : Option String
  endpointUrl : Option String
  error : Option String
  packages : Option (List PkgInfo)
deriving DecidableEq

/-- Capability sets and error strings collected from one endpoint by
_try_streamable_http. -/
structure EndpointCaps where
  tools : List Cap
  prompts : List Cap
  resources : List Cap
  errors : List String
deriving DecidableEq

/-- Truncation of an exception message to 200 characters. -/
def truncate200 (s : String) : String := (s.toList.take 200).asString

/-- Embedding of _try_streamable_http: each of the three queries is attempted
independently; a failing query leaves its list empty and appends a prefixed,
truncated error string. The sse path delegates to the same function. -/
def tryStreamableHttp (r : Remote) : EndpointCaps :=
  let toolsPart :=
    match r.toolsQ with
    | .ok caps => (caps, ([] : List String))
    | .err m => ([], ["tools/list: " ++ truncate200 m])
  let promptsPart :=
    match r.promptsQ with
    | .ok caps => (caps, ([] : List String))
    | .err m => ([], ["prompts/list: " ++ truncate200 m])
  let resourcesPart :=
    match r.resourcesQ with
    | .ok caps => (caps, ([] : List String))
    | .err m => ([], ["resources/list: " ++ truncate200 m])
  { tools := toolsPart.1, prompts := promptsPart.1, resources := resourcesPart.1,
    errors := toolsPart.2 ++ promptsPart.2 ++ resourcesPart.2 }

/-- Formatting of a failed endpoint's error strings: the single error when
there is exactly one, otherwise the first two joined by a semicolon. -/
def formatErrors (errs : List String) : String :=
  match errs with
  | [e] => e
  | _ => String.intercalate "; " (errs.take 2)

/-- Initial result dictionary of introspect. -/
def initOutcome (e : Entity) : Outcome :=
  { serverName := e.name.getD "unknown", serverVersion := e.version,
    success := false, tools := [], prompts := [], resources := [],
    transportUsed := none, endpointUrl := none, error := none, packages := none }

/-- Embedding of the endpoint loop of introspect: endpoints are tried in
declared order; an endpoint with a falsy url or an unknown transport is
skipped; a tried endpoint with any non-empty capability list fills the result
and returns immediately; a tried endpoint with all lists empty records its
formatted errors (overwriting any previous error) and its url, and the loop
advances. -/
def introspectLoop (res : Outcome) : List Remote → Outcome
  | [] => res
  | r :: rest =>
    if pyTruthyOptStr r.url then
      if r.type == some "streamable-http" || r.type == some "sse" then
        let caps := tryStreamableHttp r
        if !caps.tools.isEmpty || !caps.prompts.isEmpty || !caps.resources.isEmpty then
          { res with tools := caps.tools, prompts := caps.prompts,
                     resources := caps.resources, transportUsed := r.type,
                     endpointUrl := r.url, success := true }
        else
          let res1 :=
            if !caps.errors.isEmpty then
              { res with error := some (formatErrors caps.errors) }
            else res
          introspectLoop { res1 with endpointUrl := r.url } rest
      else introspectLoop res rest
    else introspectLoop res rest

/-- Embedding of MCPIntrospector.introspect: run the endpoint loop, then, when
the entity ships packages and no endpoint succeeded, record the package
summaries and replace the error with the stdio-only marker. -/
def introspect (e : Entity) : Outcome :=
  let res := introspectLoop (initOutcome e) e.remotes
  if !e.packages.isEmpty && !res.success then
    { res with
        packages := some (e.packages.map fun p =>
          { registry := p.registryType, identifier := p.identifier,
            transport := p.transportType }),
        error := some "stdio_only" }
  else res

/-- Predicate selecting endpoints the loop actually queries: truthy url and a
known transport. -/
def triedB (r : Remote) : Bool :=
  pyTruthyOptStr r.url && (r.type == some "streamable-http" || r.type == some "sse")

/-- Predicate selecting endpoints whose queries produce at least one
non-empty capability list. -/
def capsFound (r : Remote) : Bool :=
  let c := tryStreamableHttp r
  !c.tools.isEmpty || !c.prompts.isEmpty || !c.resources.isEmpty

/-- Error strings a tried endpoint would record. -/
def endpointErrors (r : Remote) : List String := (tryStreamableHttp r).errors

/-- Formatted error of the last endpoint in the list that is tried and has a
non-empty error list, if any. -/
def lastErr : List Remote → Option String
  | [] => none
  | r :: rest =>
    match lastErr rest with
    | some e => some e
    | none =>
      if triedB r && !(endpointErrors r).isEmpty then
        some (formatErrors (endpointErrors r))
      else none

/-- Sample endpoint whose three queries all fail. -/
def exFirstFail : Remote :=
  { type := some "streamable-http", url := some "https://a.example/mcp",
    toolsQ := .err "HTTP 500: boom", promptsQ := .err "HTTP 500: boom",
    resourcesQ := .err "HTTP 500: boom" }

/-- Sample endpoint whose tools query returns a non-empty list. -/
def exSecondGood : Remote :=
  { type := some "sse", url := some "https://b.example/sse",
    toolsQ := .ok [{ name := some "search" }], promptsQ := .ok [],
    resourcesQ := .ok [] }

/-- Sample entity with a failing first endpoint and a succeeding second
endpoint. -/
def exEntityC5 : Entity :=
  { name := some "demo", version := some "1.0.0",
    remotes := [exFirstFail, exSecondGood], packages := [] }

/-- Sample failing endpoint whose only error comes from the tools query with
message eA. -/
def exFailA : Remote :=
  { type := some "streamable-http", url := some "https://a.example/mcp",
    toolsQ := .err "eA", promptsQ := .ok [], resourcesQ := .ok [] }

/-- Sample failing endpoint whose only error comes from the tools query with
message eB. -/
def exFailB : Remote :=
  { type := some "streamable-http", url := some "https://b.example/mcp",
    toolsQ := .err "eB", promptsQ := .ok [], resourcesQ := .ok [] }

/-- Sample entity whose two endpoints both fail, with distinct errors. -/
def exEntityC6 : Entity :=
  { name := some "dup", version := none,
    remotes := [exFailA, exFailB], packages := [] }

/-- Sample endpoint whose three queries all succeed with empty lists. -/
def exEmptyOk : Remote :=
  { type := some "streamable-http", url := some "https://c.example/mcp",
    toolsQ := .ok [], promptsQ := .ok [], resourcesQ := .ok [] }

/-- Sample entity with one endpoint that answers all queries with empty lists
and no packages. -/
def exEntityC7 : Entity :=
  { name := none, version := none, remotes := [exEmptyOk], packages := [] }

/-- Sample stdio-only package. -/
def exPkg : Pkg :=
  { registryType := some "npm", identifier := some "x", transportType := some "stdio" }

/-- Sample entity with no remotes and one package. -/
def exEntityC7w : Entity :=
  { name := none, version := none, remotes := [], packages := [exPkg] }

end Introspect

namespace PullOfficial

/-- Query parameters of one page request issued by list_servers: the cursor
and updated_since parameters are included only when truthy, and the page
limit is capped at 100. -/
structure PageRequest where
  cursor : Option String
  updatedSince : Option String
  limitParam : Nat
deriving DecidableEq

/-- Response of one page request: a list of abstract server records and an
optional next cursor. -/
structure PageResponse where
  servers : List Nat
  nextCursor : Option String

/-- One sync-history record written by SyncState.add_sync_record. -/
structure SyncRecord where
  timestamp : String
  serversFetched : Nat
  durationSeconds : Nat
deriving DecidableEq

/-- Persistent sync state of the official-registry puller. -/
structure SyncStateRec where
  lastSync : Option String
  lastCursor : Option String
  totalServers : Nat
  syncHistory : List SyncRecord
deriving DecidableEq

/-- Request built by list_servers for a given cursor and updated_since
value. -/
def listServersReq (cursor updatedSince : Option String) : PageRequest :=
  { cursor := if pyTruthyOptStr cursor then cursor else none,
    updatedSince := if pyTruthyOptStr updatedSince then updatedSince else none,
    limitParam := 100 }

/-- Inner save loop over one page of servers: each record is saved and
counted, and the loop breaks once a truthy limit is reached. -/
def savePage (limit : Option Nat) : List Nat → Nat → Nat
  | [], fetched => fetched
  | _ :: rest, fetched =>
    let f := fetched + 1
    if pyTruthyOptNat limit && decide (limit.getD 0 ≤ f) then f
    else savePage limit rest f

/-- Bounded history kept by add_sync_record, the last hundred records. -/
def lastHundred (l : List SyncRecord) : List SyncRecord := l.drop (l.length - 100)

/-- Embedding of the pagination loop of pull_servers: each iteration issues a
page request carrying the run's updated_since filter, stops on an empty page,
saves the page, stops when a truthy limit is reached, advances the cursor and
stops when the next cursor is falsy. Fuel bounds the model's recursion; the
returned triple is the count fetched, the final cursor and the issued
requests. -/
def fetchLoop (registry : PageRequest → PageResponse) (syncTimestamp : Option String)
    (limit : Option Nat) :
    Nat → Option String → Nat → List PageRequest →
      Nat × Option String × List PageRequest
  | 0, cursor, fetched, reqs => (fetched, cursor, reqs)
  | fuel + 1, cursor, fetched, reqs =>
    let req := listServersReq cursor syncTimestamp
    let resp := registry req
    let reqs2 := reqs ++ [req]
    if resp.servers.isEmpty then (fetched, cursor, reqs2)
    else
      let fetched2 := savePage limit resp.servers fetched
      if pyTruthyOptNat limit && decide (limit.getD 0 ≤ fetched2) then
        (fetched2, cursor, reqs2)
      else
        let cursor2 := resp.nextCursor
        if pyTruthyOptStr cursor2 then
          fetchLoop registry syncTimestamp limit fuel cursor2 fetched2 reqs2
        else (fetched2, cursor2, reqs2)

/-- Embedding of pull_servers. The updated_since filter is the explicit
argument when truthy, else the stored last_sync timestamp when truthy, else
absent; a full sync ignores both. The start and end clock samples are passed
explicitly: sync_start is taken before the loop, while add_sync_record stamps
its history entry at the end. When at least one record was fetched, the new
state records sync_start as last_sync, the final cursor, and a history entry;
the total server count on disk is then refreshed. -/
def pullServers (registry : PageRequest → PageResponse) (fullSync : Bool)
    (updatedSince : Option String) (st : SyncStateRec) (startStamp endStamp : String)
    (durationVal diskCount fuel : Nat) (limit : Option Nat) :
    SyncStateRec × Nat × List PageRequest :=
  let syncTimestamp : Option String :=
    if fullSync then none
    else if pyTruthyOptStr updatedSince then updatedSince
    else if pyTruthyOptStr st.lastSync then st.lastSync
    else none
  let syncStart := startStamp
  let out := fetchLoop registry syncTimestamp limit fuel none 0 []
  let st1 :=
    if 0 < out.1 then
      { st with lastSync := some syncStart, lastCursor := out.2.1,
                syncHistory := lastHundred (st.syncHistory ++
                  [{ timestamp := endStamp, serversFetched := out.1,
                     durationSeconds := durationVal }]) }
    else st
  let st2 := { st1 with totalServers := diskCount }
  (st2, out.1, out.2.2)

/-- Sample registry answering every request with one record and no next
cursor. -/
def onePageRegistry : PageRequest → PageResponse :=
  fun _ => { servers := [0], nextCursor := none }

/-- Sample stored state of a previous sync. -/
def sampleSyncState : SyncStateRec :=
  { lastSync := some "2024-01-01T00:00:00Z", lastCursor := none,
    totalServers := 0, syncHistory := [] }

end PullOfficial

namespace MergeRegistries

/-- Capability descriptor carried through the merge; only the name field is
projected into tool_names. -/
structure CapEntry where
  name : Option String
deriving DecidableEq

/-- One loaded server record as built by the registry loaders, including the
two bookkeeping fields that deduplication may attach: sourcesOpt models the
optional underscore-sources key and duplicateCountOpt the optional
underscore-duplicate-count key, none meaning the key is absent. -/
structure MServer where
  source : String
  sourcePriority : Nat
  name : String
  version : Option String
  displayName : Option String
  description : Option String
  iconUrl : Option String
  repositoryUrl : Option String
  status : String
  publishedAt : Option String
  remoteEndpoint : Option String
  packages : List String
  tools : List CapEntry
  toolCount : Nat
  prompts : List CapEntry
  resources : List CapEntry
  isLatest : Bool
  verified : Option Bool
  useCount : Option Nat
  normalizedName : String
  sourcesOpt : Option (List String)
  duplicateCountOpt : Option Nat
deriving DecidableEq

/-- Comparison key of the selection in deduplicate_servers: tool count, then
source priority, then the latest flag as an integer. -/
def lexKey (s : MServer) : Nat × Nat × Nat :=
  (s.toolCount, s.sourcePriority, if s.isLatest then 1 else 0)

/-- Lexicographic strict order on comparison keys, the tuple comparison used
by the max call. -/
def keyLt (a b : Nat × Nat × Nat) : Prop :=
  a.1 < b.1 ∨ (a.1 = b.1 ∧ (a.2.1 < b.2.1 ∨ (a.2.1 = b.2.1 ∧ a.2.2 < b.2.2)))

instance (a b : Nat × Nat × Nat) : Decidable (keyLt a b) := by
  unfold keyLt
  exact inferInstance

/-- Embedding of the Python max call with a key function: the fold keeps the
current best and replaces it only when a strictly larger key appears, so the
earliest element attaining the maximal key wins. -/
def pyMax (x : MServer) (xs : List MServer) : MServer :=
  xs.foldl (fun best s => if keyLt (lexKey best) (lexKey s) then s else best) x

/-- First-appearance-ordered distinct keys, modelling iteration over the keys
of a dictionary populated in input order. -/
def distinctKeys (seen : List String) : List String → List String
  | [] => []
  | x :: xs =>
    if x ∈ seen then distinctKeys seen xs
    else x :: distinctKeys (x :: seen) xs

/-- Distinct sources of a group in first-appearance order, the keys of the
per-source dictionary built inside deduplicate_servers. -/
def groupSources (g : List MServer) : List String :=
  distinctKeys [] (g.map (·.source))

/-- Processing of one group by deduplicate_servers: singleton groups pass
through unchanged; larger groups contribute their max-key member, tagged with
the distinct sources and the group size. -/
def dedupGroup : List MServer → List MServer
  | [] => []
  | [s] => [s]
  | s :: s2 :: rest =>
    [{ pyMax s (s2 :: rest) with
        sourcesOpt := some (groupSources (s :: s2 :: rest)),
        duplicateCountOpt := some (s :: s2 :: rest).length }]

/-- One step of grouping by normalized name: append the record to its group
when the key is already present, otherwise append a new key with a singleton
group, preserving insertion order. -/
def addToGroups (acc : List (String × List MServer)) (s : MServer) :
    List (String × List MServer) :=
  if acc.any (fun p => p.1 == s.normalizedName) then
    acc.map (fun p => if p.1 == s.normalizedName then (p.1, p.2 ++ [s]) else p)
  else acc ++ [(s.normalizedName, [s])]

/-- Grouping of all records by normalized name in insertion order, the
defaultdict loop of deduplicate_servers. -/
def groupByName (l : List MServer) : List (String × List MServer) :=
  l.foldl addToGroups []

/-- Embedding of deduplicate_servers: group by normalized name, then emit the
processed groups in key order. -/
def deduplicateServers (l : List MServer) : List MServer :=
  (groupByName l).flatMap (fun p => dedupGroup p.2)

/-- Unified output record built by create_unified_schema. -/
structure Unified where
  id : String
  name : String
  displayName : Option String
  version : Option String
  description : Option String
  iconUrl : Option String
  repositoryUrl : Option String
  status : String
  publishedAt : Option String
  tools : List CapEntry
  toolCount : Nat
  prompts : List CapEntry
  resources : List CapEntry
  remoteEndpoint : Option String
  packages : List String
  sources : List String
  primarySource : String
  isLatest : Bool
  verified : Bool
  useCount : Nat
  hasRemote : Bool
  hasTools : Bool
  toolNames : List (Option String)
deriving DecidableEq

/-- Embedding of create_unified_schema: identity, metadata, capability and
connectivity fields are copied; sources defaults to the record's own source
when the deduplication key is absent; has_remote is the truthiness of the
remote endpoint and has_tools is the positivity of the stored tool count. -/
def createUnifiedSchema (s : MServer) : Unified :=
  { id := s.name, name := s.name, displayName := s.displayName, version := s.version,
    description := s.description, iconUrl := s.iconUrl,
    repositoryUrl := s.repositoryUrl, status := s.status,
    publishedAt := s.publishedAt,
    tools := s.tools, toolCount := s.toolCount, prompts := s.prompts,
    resources := s.resources,
    remoteEndpoint := s.remoteEndpoint, packages := s.packages,
    sources := s.sourcesOpt.getD [s.source], primarySource := s.source,
    isLatest := s.isLatest,
    verified := s.verified.getD false, useCount := s.useCount.getD 0,
    hasRemote := pyTruthyOptStr s.remoteEndpoint,
    hasTools := decide (0 < s.toolCount),
    toolNames := s.tools.map (·.name) }

/-- Sample loaded record with no tools, no prompts and no endpoint. -/
def baseServer : MServer :=
  { source := "official", sourcePriority := 1, name := "acme/search",
    version := some "1.0.0", displayName := some "Acme Search",
    description := some "d", iconUrl := none, repositoryUrl := none,
    status := "active", publishedAt := none, remoteEndpoint := none,
    packages := [], tools := [], toolCount := 0, prompts := [], resources := [],
    isLatest := true, verified := none, useCount := none,
    normalizedName := "acme-search", sourcesOpt := none,
    duplicateCountOpt := none }

/-- Sample record with no tools but one prompt. -/
def promptOnlyServer : MServer :=
  { baseServer with prompts := [{ name := some "summarize" }] }

/-- Sample record with one tool and a remote endpoint. -/
def toolServer : MServer :=
  { baseServer with
    tools := [⟨some "search"⟩]
    toolCount := 1
    remoteEndpoint := some "https://r.example/mcp" }

/-- Invariant of the grouping fold: every stored group equals the filter of
the processed records by its key, the keys are distinct, and the keys are
exactly the normalized names seen so far. -/
def GroupInv (processed : List MServer) (acc : List (String × List MServer)) : Prop :=
  (∀ p ∈ acc, p.2 = processed.filter (fun s => s.normalizedName == p.1)) ∧
  (acc.map Prod.fst).Nodup ∧
  (∀ k, k ∈ acc.map Prod.fst ↔ k ∈ processed.map (·.normalizedName))

/-- Sample duplicate record from the lower-priority source. -/
def dupServerA : MServer := baseServer

/-- Sample duplicate record from the higher-priority source with the same
normalized identity and the same tool count. -/
def dupServerB : MServer :=
  { baseServer with
    source := "smithery"
    sourcePriority := 2 }

/-- Expected winner of the sample duplicate pair: the higher-priority record
tagged with both sources and the group size. -/
def dupWinner : MServer :=
  { dupServerB with
    sourcesOpt := some ["official", "smithery"]
    duplicateCountOpt := some 2 }

end MergeRegistries

namespace MergeRegistries

/-- C1 counterexample. The claim asserts that exactly one trailing suffix is
stripped with longest match first, so that the first spec example would give
"foo-bar"; the code strips sequentially and yields "foo-bar-mcp", because the
-server test fires before the -mcp-server test can see the full suffix. -/
theorem normalize_longest_match_counterexample :
    normalizeServerName "Foo-Bar-MCP-Server-v2.1" = "foo-bar-mcp" ∧
    normalizeServerName "Foo-Bar-MCP-Server-v2.1" ≠ "foo-bar" := by
  constructor
  · decide
  · decide

/-- C1 amended. The identity normalizer lowercases and strips whitespace,
removes the longest trailing version suffix (separator, optional v, digits and
dot-digit groups), collapses runs of dash, underscore and slash into a single
dash, and then strips the known suffixes sequentially in the order -mcp,
-server, -mcp-server, each tested once against the current value; hence
normalize of "Foo-Bar-MCP-Server-v2.1" is "foo-bar-mcp" while normalize of
"acme_search_server" is "acme-search". -/
theorem normalize_pipeline_amended :
    normalizeServerName "Foo-Bar-MCP-Server-v2.1" = "foo-bar-mcp" ∧
    normalizeServerName "acme_search_server" = "acme-search" ∧
    (∀ s : String,
      normalizeServerName s =
        (stripOneSuffix "-mcp-server".toList
          (stripOneSuffix "-server".toList
            (stripOneSuffix "-mcp".toList
              (collapseSeparators
                (stripVersionFrom (pyStrip (s.toList.map Char.toLower))) false)))).asString) := by
  refine ⟨by decide, by decide, ?_⟩
  intro s
  rfl

end MergeRegistries

namespace PullOfficial

open Retry

/-- C4. A request answered 429 on every attempt is tried exactly three times
with strictly increasing delays 2, 4, 8 (base delay times two to the attempt)
and then surfaces the rate-limit error; a 4xx status other than 429 is
surfaced immediately with no retry and no delay; a 5xx status or a network
error is retried with the linear delays 2, 4, 6 (base delay times the
one-based attempt number). -/
theorem retry_policy_spec (outcomes : Nat → AttemptOutcome) (b0 b1 b2 st : Nat) :
    ((outcomes 0 = .response 429 b0) → (outcomes 1 = .response 429 b1) →
      (outcomes 2 = .response 429 b2) →
      requestWithRetry outcomes =
        { result := .error (.http 429), delays := [2, 4, 8], attempts := 3 } ∧
      List.Chain' (· < ·) [2, 4, 8]) ∧
    (400 ≤ st → st ≠ 429 → st < 500 → outcomes 0 = .response st b0 →
      requestWithRetry outcomes =
        { result := .error (.http st), delays := [], attempts := 1 }) ∧
    (500 ≤ st → outcomes 0 = .response st b0 → outcomes 1 = .response st b1 →
      outcomes 2 = .response st b2 →
      requestWithRetry outcomes =
        { result := .error (.http st), delays := [2, 4, 6], attempts := 3 }) ∧
    ((outcomes 0 = .network) → (outcomes 1 = .network) → (outcomes 2 = .network) →
      requestWithRetry outcomes =
        { result := .error .network, delays := [2, 4, 6], attempts := 3 }) := by
  refine ⟨?_, ?_, ?_, ?_⟩
  · intro h0 h1 h2
    refine ⟨?_, by norm_num [List.chain'_cons]⟩
    simp [requestWithRetry, maxRetries, retryStep, h0, h1, h2, retryDelay]
  · intro hge hne hlt h0
    have hnlt : ¬ st < 400 := by omega
    have hn5 : ¬ 500 ≤ st := by omega
    simp [requestWithRetry, maxRetries, retryStep, h0, hnlt, hne, hn5]
  · intro h5 h0 h1 h2
    have hnlt : ¬ st < 400 := by omega
    have hne : ¬ st = 429 := by omega
    simp [requestWithRetry, maxRetries, retryStep, h0, h1, h2, hnlt, hne, h5, retryDelay]
  · intro h0 h1 h2
    simp [requestWithRetry, maxRetries, retryStep, h0, h1, h2, retryDelay]

/-- C4 witness. Concrete run of the rate-limited branch of the retry policy
theorem. -/
theorem retry_policy_spec_witness :
    alwaysRateLimited 0 = .response 429 7 ∧
    alwaysRateLimited 1 = .response 429 7 ∧
    alwaysRateLimited 2 = .response 429 7 ∧
    (requestWithRetry alwaysRateLimited =
        { result := .error (.http 429), delays := [2, 4, 8], attempts := 3 } ∧
      List.Chain' (· < ·) [2, 4, 8]) :=
  ⟨rfl, rfl, rfl, (retry_policy_spec alwaysRateLimited 7 7 7 0).1 rfl rfl rfl⟩

end PullOfficial

namespace PullSmithery

open Retry

end PullSmithery

namespace RetryEquiv

open Retry

/-- Auxiliary equivalence of the two retry loop bodies at every loop state. -/
theorem retryStep_eq (outcomes : Nat → AttemptOutcome) :
    ∀ fuel attempt lastError delays,
      PullOfficial.retryStep outcomes attempt fuel lastError delays =
        PullSmithery.retryStep outcomes attempt fuel lastError delays := by
  intro fuel
  induction fuel with
  | zero =>
    intro attempt lastError delays
    simp [PullOfficial.retryStep, PullSmithery.retryStep]
  | succ n ih =>
    intro attempt lastError delays
    simp only [PullOfficial.retryStep, PullSmithery.retryStep,
      PullOfficial.retryDelay, PullSmithery.retryDelay]
    cases outcomes attempt with
    | response st body =>
      by_cases h1 : st < 400
      · simp [h1]
      · by_cases h2 : st = 429
        · simp [h1, h2, ih]
        · by_cases h3 : 500 ≤ st
          · simp [h1, h2, h3, ih]
          · simp [h1, h2, h3]
    | network => simp [ih]

/-- C9. The retry policies of the official-registry client and of the
Smithery client are extensionally equal: on every sequence of per-attempt
outcomes they produce the same result, the same delay sequence, and the same
number of attempts. -/
theorem retry_policies_extensionally_equal (outcomes : Nat → AttemptOutcome) :
    PullOfficial.requestWithRetry outcomes = PullSmithery.requestWithRetry outcomes := by
  simp only [PullOfficial.requestWithRetry, PullSmithery.requestWithRetry,
    PullOfficial.maxRetries, PullSmithery.maxRetries]
  exact retryStep_eq outcomes 3 0 none []

end RetryEquiv

namespace Introspect

theorem lastErr_cons_skip (r : Remote) (rest : List Remote)
    (h : (triedB r && !(endpointErrors r).isEmpty) = false) :
    lastErr (r :: rest) = lastErr rest := by
  cases hlr : lastErr rest <;> simp [lastErr, hlr, h]

theorem lastErr_cons_contrib (r : Remote) (rest : List Remote)
    (h : (triedB r && !(endpointErrors r).isEmpty) = true) :
    lastErr (r :: rest) =
      some ((lastErr rest).getD (formatErrors (endpointErrors r))) := by
  cases hlr : lastErr rest <;> simp [lastErr, hlr, h]

theorem lastErr_append (l1 l2 : List Remote) :
    lastErr (l1 ++ l2) = (lastErr l2).or (lastErr l1) := by
  induction l1 with
  | nil => cases h : lastErr l2 <;> simp [h, Option.or, lastErr]
  | cons r t ih =>
    by_cases h : (triedB r && !(endpointErrors r).isEmpty) = true
    · rw [List.cons_append, lastErr_cons_contrib r (t ++ l2) h, ih,
        lastErr_cons_contrib r t h]
      cases h2 : lastErr l2 <;> cases h3 : lastErr t <;> simp [Option.or]
    · rw [List.cons_append, lastErr_cons_skip r (t ++ l2) (by simpa using h), ih,
        lastErr_cons_skip r t (by simpa using h)]

theorem lastErr_ne_none_iff (l : List Remote) :
    lastErr l ≠ none ↔ ∃ r ∈ l, triedB r = true ∧ endpointErrors r ≠ [] := by
  induction l with
  | nil => simp [lastErr]
  | cons r t ih =>
    by_cases h : (triedB r && !(endpointErrors r).isEmpty) = true
    · rw [lastErr_cons_contrib r t h]
      have hr : triedB r = true ∧ endpointErrors r ≠ [] := by
        have := h
        simp only [Bool.and_eq_true, Bool.not_eq_true', List.isEmpty_eq_false] at this
        exact this
      simp [hr.1, hr.2]
    · rw [lastErr_cons_skip r t (by simpa using h)]
      have hr : ¬(triedB r = true ∧ endpointErrors r ≠ []) := by
        intro hc
        apply h
        simp only [Bool.and_eq_true, Bool.not_eq_true', List.isEmpty_eq_false]
        exact hc
      rw [ih]
      constructor
      · rintro ⟨x, hx, hp⟩
        exact ⟨x, by simp [hx], hp⟩
      · rintro ⟨x, hx, hp⟩
        rcases List.mem_cons.mp hx with hx | hx
        · exact absurd (hx ▸ hp) hr
        · exact ⟨x, hx, hp⟩

theorem loop_no_success (l : List Remote) : ∀ res : Outcome,
    (∀ r ∈ l, triedB r = true → capsFound r = false) →
    (introspectLoop res l).success = res.success ∧
    (introspectLoop res l).tools = res.tools ∧
    (introspectLoop res l).prompts = res.prompts ∧
    (introspectLoop res l).resources = res.resources ∧
    (introspectLoop res l).error = (lastErr l).or res.error := by
  induction l with
  | nil =>
    intro res h
    simp [introspectLoop, lastErr, Option.or]
  | cons r rest ih =>
    intro res h
    have hrest : ∀ x ∈ rest, triedB x = true → capsFound x = false :=
      fun x hx => h x (List.mem_cons_of_mem r hx)
    by_cases hu : pyTruthyOptStr r.url = true
    · by_cases ht : (r.type == some "streamable-http" || r.type == some "sse") = true
      · have htr : triedB r = true := by simp [triedB, hu, ht]
        have hcf : capsFound r = false := h r (List.mem_cons_self r rest) htr
        have hcf2 : (!(tryStreamableHttp r).tools.isEmpty ||
            !(tryStreamableHttp r).prompts.isEmpty ||
            !(tryStreamableHttp r).resources.isEmpty) = false := by
          simpa [capsFound] using hcf
        by_cases he : (endpointErrors r).isEmpty = true
        · have hstep : introspectLoop res (r :: rest) =
              introspectLoop { res with endpointUrl := r.url } rest := by
            simp only [introspectLoop, hu, ht, if_true]
            simp [hcf2, endpointErrors] at he ⊢
            simp [he]
          have hle : lastErr (r :: rest) = lastErr rest :=
            lastErr_cons_skip r rest (by simp [he])
          rw [hstep, hle]
          exact ih { res with endpointUrl := r.url } hrest
        · have hstep : introspectLoop res (r :: rest) =
              introspectLoop
                { res with error := some (formatErrors (endpointErrors r)),
                           endpointUrl := r.url } rest := by
            simp only [introspectLoop, hu, ht, if_true]
            simp only [Bool.not_eq_true] at he
            simp [hcf2, endpointErrors] at he ⊢
            simp [he, endpointErrors]
          have hle : lastErr (r :: rest) =
              some ((lastErr rest).getD (formatErrors (endpointErrors r))) :=
            lastErr_cons_contrib r rest (by simp [htr, he])
          rw [hstep, hle]
          have hres := ih
            { res with error := some (formatErrors (endpointErrors r)),
                       endpointUrl := r.url } hrest
          refine ⟨hres.1, hres.2.1, hres.2.2.1, hres.2.2.2.1, ?_⟩
          rw [hres.2.2.2.2]
          cases h2 : lastErr rest <;> simp [Option.or]
      · have hstep : introspectLoop res (r :: rest) = introspectLoop res rest := by
          simp only [introspectLoop, hu, if_true]
          simp [ht]
        have hle : lastErr (r :: rest) = lastErr rest :=
          lastErr_cons_skip r rest (by simp [triedB, ht])
        rw [hstep, hle]
        exact ih res hrest
    · have hstep : introspectLoop res (r :: rest) = introspectLoop res rest := by
        simp [introspectLoop, hu]
      have hle : lastErr (r :: rest) = lastErr rest :=
        lastErr_cons_skip r rest (by simp [triedB, hu])
      rw [hstep, hle]
      exact ih res hrest

theorem loop_success_any (l : List Remote) : ∀ res : Outcome,
    (introspectLoop res l).success =
      (res.success || l.any fun r => triedB r && capsFound r) := by
  induction l with
  | nil => intro res; simp [introspectLoop]
  | cons r rest ih =>
    intro res
    by_cases hu : pyTruthyOptStr r.url = true
    · by_cases ht : (r.type == some "streamable-http" || r.type == some "sse") = true
      · have htr : triedB r = true := by simp [triedB, hu, ht]
        by_cases hcf : capsFound r = true
        · have hcf2 : (!(tryStreamableHttp r).tools.isEmpty ||
              !(tryStreamableHttp r).prompts.isEmpty ||
              !(tryStreamableHttp r).resources.isEmpty) = true := by
            simpa [capsFound] using hcf
          simp [introspectLoop, hu, ht, hcf2, htr, hcf]
        · have hcf2 : (!(tryStreamableHttp r).tools.isEmpty ||
              !(tryStreamableHttp r).prompts.isEmpty ||
              !(tryStreamableHttp r).resources.isEmpty) = false := by
            simpa [capsFound] using (Bool.not_eq_true _).mp hcf
          have hcfF : capsFound r = false := (Bool.not_eq_true _).mp hcf
          by_cases he : (endpointErrors r).isEmpty = true
          · have hstep : introspectLoop res (r :: rest) =
                introspectLoop { res with endpointUrl := r.url } rest := by
              simp only [introspectLoop, hu, ht, if_true]
              simp [hcf2, endpointErrors] at he ⊢
              simp [he]
            rw [hstep, ih]
            simp [htr, hcfF]
          · have hstep : introspectLoop res (r :: rest) =
                introspectLoop
                  { res with error := some (formatErrors (endpointErrors r)),
                             endpointUrl := r.url } rest := by
              simp only [introspectLoop, hu, ht, if_true]
              simp only [Bool.not_eq_true] at he
              simp [hcf2, endpointErrors] at he ⊢
              simp [he, endpointErrors]
            rw [hstep, ih]
            simp [htr, hcfF]
      · have htr : triedB r = false := by simp [triedB, ht]
        have hstep : introspectLoop res (r :: rest) = introspectLoop res rest := by
          simp only [introspectLoop, hu, if_true]
          simp [ht]
        rw [hstep, ih]
        simp [htr]
    · have htr : triedB r = false := by simp [triedB, hu]
      have hstep : introspectLoop res (r :: rest) = introspectLoop res rest := by
        simp [introspectLoop, hu]
      rw [hstep, ih]
      simp [htr]

theorem introspect_success_any (e : Entity) :
    (introspect e).success = e.remotes.any fun r => triedB r && capsFound r := by
  have h := loop_success_any e.remotes (initOutcome e)
  have hs : (initOutcome e).success = false := rfl
  rw [hs, Bool.false_or] at h
  simp only [introspect]
  by_cases hc : (!e.packages.isEmpty &&
      !(introspectLoop (initOutcome e) e.remotes).success) = true
  · simp only [hc, if_true]
    exact h
  · rw [if_neg hc]
    exact h

theorem loop_skip (l1 : List Remote) : ∀ (res : Outcome) (rest : List Remote),
    (∀ r ∈ l1, ¬(triedB r = true ∧ capsFound r = true)) →
    ∃ res2 : Outcome, introspectLoop res (l1 ++ rest) = introspectLoop res2 rest := by
  induction l1 with
  | nil =>
    intro res rest _
    exact ⟨res, rfl⟩
  | cons r t ih =>
    intro res rest h
    have hr := h r (List.mem_cons_self r t)
    have ht2 : ∀ x ∈ t, ¬(triedB x = true ∧ capsFound x = true) :=
      fun x hx => h x (List.mem_cons_of_mem r hx)
    by_cases hu : pyTruthyOptStr r.url = true
    · by_cases htyp : (r.type == some "streamable-http" || r.type == some "sse") = true
      · have htr : triedB r = true := by simp [triedB, hu, htyp]
        have hcf : capsFound r = false := by
          cases hc : capsFound r
          · rfl
          · exact absurd ⟨htr, hc⟩ hr
        have hcf2 : (!(tryStreamableHttp r).tools.isEmpty ||
            !(tryStreamableHttp r).prompts.isEmpty ||
            !(tryStreamableHttp r).resources.isEmpty) = false := by
          simpa [capsFound] using hcf
        by_cases he : (endpointErrors r).isEmpty = true
        · have hstep : introspectLoop res ((r :: t) ++ rest) =
              introspectLoop { res with endpointUrl := r.url } (t ++ rest) := by
            simp only [List.cons_append, introspectLoop, hu, htyp, if_true]
            simp [hcf2, endpointErrors] at he ⊢
            simp [he]
          rw [hstep]
          exact ih { res with endpointUrl := r.url } rest ht2
        · have hstep : introspectLoop res ((r :: t) ++ rest) =
              introspectLoop
                { res with error := some (formatErrors (endpointErrors r)),
                           endpointUrl := r.url } (t ++ rest) := by
            simp only [List.cons_append, introspectLoop, hu, htyp, if_true]
            simp only [Bool.not_eq_true] at he
            simp [hcf2, endpointErrors] at he ⊢
            simp [he, endpointErrors]
          rw [hstep]
          exact ih _ rest ht2
      · have hstep : introspectLoop res ((r :: t) ++ rest) =
            introspectLoop res (t ++ rest) := by
          simp only [List.cons_append, introspectLoop, hu, if_true]
          simp [htyp]
        rw [hstep]
        exact ih res rest ht2
    · have hstep : introspectLoop res ((r :: t) ++ rest) =
          introspectLoop res (t ++ rest) := by
        simp [introspectLoop, hu]
      rw [hstep]
      exact ih res rest ht2

theorem loop_success_head (res : Outcome) (r : Remote) (rest : List Remote)
    (htried : triedB r = true) (hfound : capsFound r = true) :
    introspectLoop res (r :: rest) =
      { res with tools := (tryStreamableHttp r).tools,
                 prompts := (tryStreamableHttp r).prompts,
                 resources := (tryStreamableHttp r).resources,
                 transportUsed := r.type, endpointUrl := r.url, success := true } := by
  have hu : pyTruthyOptStr r.url = true := by
    simp only [triedB, Bool.and_eq_true] at htried
    exact htried.1
  have htyp : (r.type == some "streamable-http" || r.type == some "sse") = true := by
    simp only [triedB, Bool.and_eq_true] at htried
    exact htried.2
  have hcf2 : (!(tryStreamableHttp r).tools.isEmpty ||
      !(tryStreamableHttp r).prompts.isEmpty ||
      !(tryStreamableHttp r).resources.isEmpty) = true := by
    simpa [capsFound] using hfound
  simp only [introspectLoop, hu, htyp, if_true, hcf2]

/-- C5. The loop over an entity's endpoints stops at the first endpoint that
is tried and yields a non-empty capability list: the outcome is successful and
records exactly that endpoint's transport, url and capability sets, and no
later endpoint influences the outcome. -/
theorem first_success_wins (e : Entity) (l1 : List Remote) (r : Remote) (l2 : List Remote)
    (hsplit : e.remotes = l1 ++ r :: l2)
    (hskip : ∀ x ∈ l1, ¬(triedB x = true ∧ capsFound x = true))
    (htried : triedB r = true) (hfound : capsFound r = true) :
    (introspect e).success = true ∧
    (introspect e).transportUsed = r.type ∧
    (introspect e).endpointUrl = r.url ∧
    (introspect e).tools = (tryStreamableHttp r).tools ∧
    (introspect e).prompts = (tryStreamableHttp r).prompts ∧
    (introspect e).resources = (tryStreamableHttp r).resources := by
  obtain ⟨res2, hres2⟩ := loop_skip l1 (initOutcome e) (r :: l2) hskip
  have hloop : introspectLoop (initOutcome e) e.remotes =
      { res2 with tools := (tryStreamableHttp r).tools,
                  prompts := (tryStreamableHttp r).prompts,
                  resources := (tryStreamableHttp r).resources,
                  transportUsed := r.type, endpointUrl := r.url, success := true } := by
    rw [hsplit, hres2, loop_success_head res2 r l2 htried hfound]
  have hintro : introspect e =
      { res2 with tools := (tryStreamableHttp r).tools,
                  prompts := (tryStreamableHttp r).prompts,
                  resources := (tryStreamableHttp r).resources,
                  transportUsed := r.type, endpointUrl := r.url, success := true } := by
    simp [introspect, hloop]
  rw [hintro]
  exact ⟨rfl, rfl, rfl, rfl, rfl, rfl⟩

/-- C5 witness. Concrete two-endpoint entity where the first endpoint only
errors and the second yields a non-empty tools list: the outcome succeeds
with the second endpoint's transport. -/
theorem first_success_wins_witness :
    exEntityC5.remotes = [exFirstFail] ++ exSecondGood :: [] ∧
    triedB exSecondGood = true ∧ capsFound exSecondGood = true ∧
    ((introspect exEntityC5).success = true ∧
      (introspect exEntityC5).transportUsed = exSecondGood.type ∧
      (introspect exEntityC5).endpointUrl = exSecondGood.url ∧
      (introspect exEntityC5).tools = (tryStreamableHttp exSecondGood).tools ∧
      (introspect exEntityC5).prompts = (tryStreamableHttp exSecondGood).prompts ∧
      (introspect exEntityC5).resources = (tryStreamableHttp exSecondGood).resources) :=
  ⟨rfl, by decide, by decide,
    first_success_wins exEntityC5 [exFirstFail] exSecondGood [] rfl
      (by decide) (by decide) (by decide)⟩

/-- C6 counterexample. On an entity whose two endpoints both fail, the claim
says the outcome error carries the first endpoint's error; the code overwrites
the error at each failing endpoint, so the outcome carries the second
endpoint's error instead. -/
theorem error_first_endpoint_counterexample :
    (introspect exEntityC6).success = false ∧
    (introspect exEntityC6).error = some "tools/list: eB" ∧
    formatErrors (endpointErrors exFailA) = "tools/list: eA" ∧
    (introspect exEntityC6).error ≠ some "tools/list: eA" := by
  refine ⟨by decide, by decide, by decide, by decide⟩

/-- C6 amended. For an entity with no packages whose endpoints are all
exhausted without any query returning a non-empty list, the outcome is a
failure whose error field carries the formatted error of the last tried
endpoint that produced errors; earlier endpoints' errors are overwritten. -/
theorem failure_error_last_endpoint (e : Entity) (l1 : List Remote) (r : Remote)
    (l2 : List Remote)
    (hsplit : e.remotes = l1 ++ r :: l2)
    (hnone : ∀ x ∈ e.remotes, triedB x = true → capsFound x = false)
    (htried : triedB r = true) (herr : endpointErrors r ≠ [])
    (hlater : ∀ x ∈ l2, triedB x = true → endpointErrors x = [])
    (hpkg : e.packages = []) :
    (introspect e).success = false ∧
    (introspect e).error = some (formatErrors (endpointErrors r)) := by
  have hloop := loop_no_success e.remotes (initOutcome e) hnone
  have hsucc : (introspectLoop (initOutcome e) e.remotes).success = false := by
    rw [hloop.1]; rfl
  have hl2 : lastErr l2 = none := by
    by_contra hne
    obtain ⟨x, hx, hxt, hxe⟩ := (lastErr_ne_none_iff l2).mp hne
    exact hxe (hlater x hx hxt)
  have hcons : lastErr (r :: l2) = some (formatErrors (endpointErrors r)) := by
    rw [lastErr_cons_contrib r l2 (by simp [htried, herr])]
    simp [hl2]
  have hlast : lastErr e.remotes = some (formatErrors (endpointErrors r)) := by
    rw [hsplit, lastErr_append, hcons]
    simp [Option.or]
  have herrf : (introspectLoop (initOutcome e) e.remotes).error =
      some (formatErrors (endpointErrors r)) := by
    rw [hloop.2.2.2.2, hlast]
    simp [Option.or, initOutcome]
  have hintro : introspect e = introspectLoop (initOutcome e) e.remotes := by
    simp [introspect, hpkg]
  rw [hintro]
  exact ⟨hsucc, herrf⟩

/-- C6 witness. Concrete two-endpoint failing entity: the outcome error is
the second (last) endpoint's formatted error. -/
theorem failure_error_last_endpoint_witness :
    triedB exFailB = true ∧ endpointErrors exFailB ≠ [] ∧
    ((introspect exEntityC6).success = false ∧
      (introspect exEntityC6).error = some (formatErrors (endpointErrors exFailB))) :=
  ⟨by decide, by decide,
    failure_error_last_endpoint exEntityC6 [exFailA] exFailB [] rfl
      (by decide) (by decide) (by decide) (by decide) rfl⟩

/-- C7 counterexample. The claim says the error field is non-null exactly
when success is false; on an entity whose single endpoint answers every query
with an empty list, the outcome has success false and a null error field. -/
theorem error_iff_failure_counterexample :
    (introspect exEntityC7).success = false ∧
    (introspect exEntityC7).error = none := by
  refine ⟨by decide, by decide⟩

/-- C7 amended. When the outcome's success flag is false, the error field is
present if and only if the entity ships packages (stdio-only marker) or some
tried endpoint produced query errors; in particular the error field can be
null on failure, and on success it may still carry an earlier endpoint's
error. -/
theorem failure_error_characterization (e : Entity)
    (hfail : (introspect e).success = false) :
    (introspect e).error ≠ none ↔
      (e.packages ≠ [] ∨ ∃ r ∈ e.remotes, triedB r = true ∧ endpointErrors r ≠ []) := by
  have hany : (e.remotes.any fun r => triedB r && capsFound r) = false := by
    rw [← introspect_success_any e]; exact hfail
  have hnone : ∀ x ∈ e.remotes, triedB x = true → capsFound x = false := by
    intro x hx hxt
    have := List.any_eq_false.mp hany x hx
    cases hc : capsFound x
    · rfl
    · exact absurd (by simp [hxt, hc]) this
  have hloop := loop_no_success e.remotes (initOutcome e) hnone
  have hsucc : (introspectLoop (initOutcome e) e.remotes).success = false := by
    rw [hloop.1]; rfl
  have herrf : (introspectLoop (initOutcome e) e.remotes).error = lastErr e.remotes := by
    rw [hloop.2.2.2.2]
    cases h : lastErr e.remotes <;> simp [Option.or, initOutcome]
  by_cases hpkg : e.packages.isEmpty = true
  · have hpkg2 : e.packages = [] := by simpa using hpkg
    have hintro : introspect e = introspectLoop (initOutcome e) e.remotes := by
      simp [introspect, hpkg2]
    rw [hintro, herrf, lastErr_ne_none_iff]
    simp [hpkg2]
  · have hpkg2 : e.packages ≠ [] := by simpa using hpkg
    have hcond : (!e.packages.isEmpty &&
        !(introspectLoop (initOutcome e) e.remotes).success) = true := by
      simp [hsucc, hpkg]
    have hintro : (introspect e).error = some "stdio_only" := by
      simp only [introspect]
      rw [if_pos hcond]
    rw [hintro]
    simp [hpkg2]

/-- C7 witness. Concrete package-only entity: the outcome fails and the
error field is present. -/
theorem failure_error_characterization_witness :
    (introspect exEntityC7w).success = false ∧ (introspect exEntityC7w).error ≠ none :=
  ⟨by decide,
    (failure_error_characterization exEntityC7w (by decide)).mpr (Or.inl (by decide))⟩

theorem loop_invariant_success_fields (l : List Remote) : ∀ res : Outcome,
    res.success = false → res.tools = [] → res.prompts = [] → res.resources = [] →
    (((introspectLoop res l).success = true →
        ((introspectLoop res l).tools ≠ [] ∨ (introspectLoop res l).prompts ≠ [] ∨
          (introspectLoop res l).resources ≠ []) ∧
        (introspectLoop res l).transportUsed ≠ none ∧
        (introspectLoop res l).endpointUrl ≠ none) ∧
      ((introspectLoop res l).success = false →
        (introspectLoop res l).tools = [] ∧ (introspectLoop res l).prompts = [] ∧
        (introspectLoop res l).resources = [])) := by
  induction l with
  | nil =>
    intro res hs ht hp hr
    constructor
    · intro hc
      rw [introspectLoop] at hc
      rw [hs] at hc
      cases hc
    · intro _
      exact ⟨ht, hp, hr⟩
  | cons r rest ih =>
    intro res hs ht hp hr
    by_cases hu : pyTruthyOptStr r.url = true
    · by_cases htyp : (r.type == some "streamable-http" || r.type == some "sse") = true
      · by_cases hcf : capsFound r = true
        · have htr : triedB r = true := by simp [triedB, hu, htyp]
          rw [loop_success_head res r rest htr hcf]
          constructor
          · intro _
            refine ⟨?_, ?_, ?_⟩
            · have := hcf
              simp only [capsFound, Bool.or_eq_true, Bool.not_eq_true',
                List.isEmpty_eq_false] at this
              tauto
            · cases hty : r.type with
              | none => rw [hty] at htyp; simp at htyp
              | some t => simp
            · cases hur : r.url with
              | none => rw [hur] at hu; simp [pyTruthyOptStr] at hu
              | some u => simp
          · intro hc
            cases hc
        · have hcf2 : (!(tryStreamableHttp r).tools.isEmpty ||
              !(tryStreamableHttp r).prompts.isEmpty ||
              !(tryStreamableHttp r).resources.isEmpty) = false := by
            simpa [capsFound] using (Bool.not_eq_true _).mp hcf
          by_cases he : (endpointErrors r).isEmpty = true
          · have hstep : introspectLoop res (r :: rest) =
                introspectLoop { res with endpointUrl := r.url } rest := by
              simp only [introspectLoop, hu, htyp, if_true]
              simp [hcf2, endpointErrors] at he ⊢
              simp [he]
            rw [hstep]
            exact ih { res with endpointUrl := r.url } hs ht hp hr
          · have hstep : introspectLoop res (r :: rest) =
                introspectLoop
                  { res with error := some (formatErrors (endpointErrors r)),
                             endpointUrl := r.url } rest := by
              simp only [introspectLoop, hu, htyp, if_true]
              simp only [Bool.not_eq_true] at he
              simp [hcf2, endpointErrors] at he ⊢
              simp [he, endpointErrors]
            rw [hstep]
            exact ih _ hs ht hp hr
      · have hstep : introspectLoop res (r :: rest) = introspectLoop res rest := by
          simp only [introspectLoop, hu, if_true]
          simp [htyp]
        rw [hstep]
        exact ih res hs ht hp hr
    · have hstep : introspectLoop res (r :: rest) = introspectLoop res rest := by
        simp [introspectLoop, hu]
      rw [hstep]
      exact ih res hs ht hp hr

/-- C10. Every outcome of introspect satisfies: on success at least one
capability list is non-empty and both the transport and the endpoint url are
recorded; on failure all three capability lists are empty. -/
theorem success_invariant (e : Entity) :
    ((introspect e).success = true →
      ((introspect e).tools ≠ [] ∨ (introspect e).prompts ≠ [] ∨
        (introspect e).resources ≠ []) ∧
      (introspect e).transportUsed ≠ none ∧ (introspect e).endpointUrl ≠ none) ∧
    ((introspect e).success = false →
      (introspect e).tools = [] ∧ (introspect e).prompts = [] ∧
      (introspect e).resources = []) := by
  have h := loop_invariant_success_fields e.remotes (initOutcome e) rfl rfl rfl rfl
  have hproj : (introspect e).success = (introspectLoop (initOutcome e) e.remotes).success ∧
      (introspect e).tools = (introspectLoop (initOutcome e) e.remotes).tools ∧
      (introspect e).prompts = (introspectLoop (initOutcome e) e.remotes).prompts ∧
      (introspect e).resources = (introspectLoop (initOutcome e) e.remotes).resources ∧
      (introspect e).transportUsed =
        (introspectLoop (initOutcome e) e.remotes).transportUsed ∧
      (introspect e).endpointUrl =
        (introspectLoop (initOutcome e) e.remotes).endpointUrl := by
    simp only [introspect]
    by_cases hc : (!e.packages.isEmpty &&
        !(introspectLoop (initOutcome e) e.remotes).success) = true
    · rw [if_pos hc]
      exact ⟨rfl, rfl, rfl, rfl, rfl, rfl⟩
    · rw [if_neg hc]
      exact ⟨rfl, rfl, rfl, rfl, rfl, rfl⟩
  obtain ⟨p1, p2, p3, p4, p5, p6⟩ := hproj
  rw [p1, p2, p3, p4, p5, p6]
  exact h

/-- C10 witness. Concrete successful outcome on the two-endpoint sample
entity: a non-empty capability list, a recorded transport and a recorded
endpoint url. -/
theorem success_invariant_witness :
    (introspect exEntityC5).success = true ∧
    (((introspect exEntityC5).tools ≠ [] ∨ (introspect exEntityC5).prompts ≠ [] ∨
        (introspect exEntityC5).resources ≠ []) ∧
      (introspect exEntityC5).transportUsed ≠ none ∧
      (introspect exEntityC5).endpointUrl ≠ none) :=
  ⟨by decide, (success_invariant exEntityC5).1 (by decide)⟩

end Introspect

namespace PullOfficial

theorem fetchLoop_requests (registry : PageRequest → PageResponse)
    (syncTimestamp : Option String) (limit : Option Nat) :
    ∀ (fuel : Nat) (cursor : Option String) (fetched : Nat) (reqs : List PageRequest),
      (∀ q ∈ reqs, q.updatedSince =
        (if pyTruthyOptStr syncTimestamp then syncTimestamp else none)) →
      ∀ q ∈ (fetchLoop registry syncTimestamp limit fuel cursor fetched reqs).2.2,
        q.updatedSince = (if pyTruthyOptStr syncTimestamp then syncTimestamp else none) := by
  intro fuel
  induction fuel with
  | zero =>
    intro cursor fetched reqs h q hq
    exact h q hq
  | succ n ih =>
    intro cursor fetched reqs h q hq
    have hext : ∀ x ∈ reqs ++ [listServersReq cursor syncTimestamp],
        x.updatedSince = (if pyTruthyOptStr syncTimestamp then syncTimestamp else none) := by
      intro x hx
      rcases List.mem_append.mp hx with hx | hx
      · exact h x hx
      · rcases List.mem_singleton.mp hx with rfl
        rfl
    rw [fetchLoop] at hq
    by_cases h1 : (registry (listServersReq cursor syncTimestamp)).servers.isEmpty = true
    · simp only [h1, if_true] at hq
      exact hext q hq
    · rw [if_neg (by simp [h1])] at hq
      by_cases h2 : (pyTruthyOptNat limit && decide (limit.getD 0 ≤
          savePage limit (registry (listServersReq cursor syncTimestamp)).servers fetched))
          = true
      · simp only [h2, if_true] at hq
        exact hext q hq
      · rw [if_neg (by simp at h2 ⊢; tauto)] at hq
        by_cases h3 : pyTruthyOptStr
            (registry (listServersReq cursor syncTimestamp)).nextCursor = true
        · simp only [h3, if_true] at hq
          exact ih _ _ _ hext q hq
        · rw [if_neg h3] at hq
          exact hext q hq

/-- C8. On an incremental run (no full-sync flag, no explicit filter, a
truthy stored last_sync), every page request carries the stored last_sync as
its updated_since filter, and when at least one record is fetched the new
last_sync equals the timestamp sampled at the start of the run, independent
of the end-of-run timestamp. -/
theorem incremental_sync_stamps_start (registry : PageRequest → PageResponse)
    (st : SyncStateRec) (startStamp endStamp : String)
    (durationVal diskCount fuel : Nat) (limit : Option Nat)
    (hinc : pyTruthyOptStr st.lastSync = true) :
    (∀ q ∈ (pullServers registry false none st startStamp endStamp durationVal
        diskCount fuel limit).2.2, q.updatedSince = st.lastSync) ∧
    (0 < (pullServers registry false none st startStamp endStamp durationVal
        diskCount fuel limit).2.1 →
      (pullServers registry false none st startStamp endStamp durationVal
        diskCount fuel limit).1.lastSync = some startStamp) ∧
    (0 < (pullServers registry false none st startStamp endStamp durationVal
        diskCount fuel limit).2.1 → startStamp ≠ endStamp →
      (pullServers registry false none st startStamp endStamp durationVal
        diskCount fuel limit).1.lastSync ≠ some endStamp) := by
  have h0 : pyTruthyOptStr (none : Option String) = false := rfl
  have hts : (if (false : Bool) then (none : Option String)
      else if pyTruthyOptStr none then none
      else if pyTruthyOptStr st.lastSync then st.lastSync
      else none) = st.lastSync := by
    simp [h0, hinc]
  refine ⟨?_, ?_, ?_⟩
  · intro q hq
    simp only [pullServers, hts] at hq
    have := fetchLoop_requests registry st.lastSync limit fuel none 0 []
      (by intro x hx; cases hx) q hq
    rw [this, if_pos hinc]
  · intro hpos
    simp only [pullServers, hts] at hpos ⊢
    rw [if_pos hpos]
  · intro hpos hne
    simp only [pullServers, hts] at hpos ⊢
    rw [if_pos hpos]
    simp
    intro hcc
    exact hne hcc

/-- C8 witness. Concrete incremental run fetching one record: the stored
last_sync is truthy, one record is fetched, and the recorded last_sync is the
start-of-run stamp. -/
theorem incremental_sync_stamps_start_witness :
    pyTruthyOptStr sampleSyncState.lastSync = true ∧
    0 < (pullServers onePageRegistry false none sampleSyncState "startT" "endT"
        3 1 5 none).2.1 ∧
    (pullServers onePageRegistry false none sampleSyncState "startT" "endT"
        3 1 5 none).1.lastSync = some "startT" :=
  ⟨by decide, by decide,
    (incremental_sync_stamps_start onePageRegistry sampleSyncState "startT" "endT"
        3 1 5 none (by decide)).2.1 (by decide)⟩

end PullOfficial

namespace MergeRegistries

/-- C3 counterexample. The claim says the derived capabilities flag is true
iff any of the three capability lists is non-empty; the code derives has_tools
from the tool count alone, so a record whose only capability is a prompt gets
a false flag. -/
theorem hasCapabilities_counterexample :
    (createUnifiedSchema promptOnlyServer).hasTools = false ∧
    promptOnlyServer.prompts ≠ [] ∧
    promptOnlyServer.toolCount = promptOnlyServer.tools.length := by
  refine ⟨by decide, by decide, by decide⟩

/-- C3 amended. For every merge winner whose stored tool count matches its
tools list, the unified record has has_remote true iff the remote endpoint is
present and non-empty, and its derived capability flag is has_tools, true iff
the tools list is non-empty; prompts and resources do not influence it, and
the three capability lists are carried over unchanged. -/
theorem createUnifiedSchema_flags (s : MServer)
    (hc : s.toolCount = s.tools.length) :
    ((createUnifiedSchema s).hasRemote = true ↔
      ∃ u, s.remoteEndpoint = some u ∧ u ≠ "") ∧
    ((createUnifiedSchema s).hasTools = true ↔ s.tools ≠ []) ∧
    (createUnifiedSchema s).tools = s.tools ∧
    (createUnifiedSchema s).prompts = s.prompts ∧
    (createUnifiedSchema s).resources = s.resources := by
  refine ⟨?_, ?_, rfl, rfl, rfl⟩
  · show pyTruthyOptStr s.remoteEndpoint = true ↔ _
    cases h : s.remoteEndpoint with
    | none => simp [pyTruthyOptStr]
    | some u => simp [pyTruthyOptStr]
  · show decide (0 < s.toolCount) = true ↔ _
    rw [decide_eq_true_iff, hc, List.length_pos]

/-- C3 witness. Concrete record with one tool and an endpoint: both derived
flags are true. -/
theorem createUnifiedSchema_flags_witness :
    toolServer.toolCount = toolServer.tools.length ∧
    (createUnifiedSchema toolServer).hasTools = true ∧
    (createUnifiedSchema toolServer).hasRemote = true :=
  ⟨rfl, (createUnifiedSchema_flags toolServer rfl).2.1.mpr (by decide),
    (createUnifiedSchema_flags toolServer rfl).1.mpr
      ⟨"https://r.example/mcp", rfl, by decide⟩⟩

theorem keyLt_irrefl (a : Nat × Nat × Nat) : ¬ keyLt a a := by
  obtain ⟨a1, a2, a3⟩ := a
  simp only [keyLt]
  omega

theorem keyLt_ge_trans {a b c : Nat × Nat × Nat}
    (h1 : ¬ keyLt b a) (h2 : ¬ keyLt c b) : ¬ keyLt c a := by
  obtain ⟨a1, a2, a3⟩ := a
  obtain ⟨b1, b2, b3⟩ := b
  obtain ⟨c1, c2, c3⟩ := c
  simp only [keyLt] at h1 h2 ⊢
  omega

theorem keyLt_lt_of_lt_of_ge {x a m : Nat × Nat × Nat}
    (h1 : keyLt x a) (h2 : ¬ keyLt m a) : keyLt x m := by
  obtain ⟨x1, x2, x3⟩ := x
  obtain ⟨a1, a2, a3⟩ := a
  obtain ⟨m1, m2, m3⟩ := m
  simp only [keyLt] at h1 h2 ⊢
  omega

theorem keyLt_nlt_of_lt_of_ge {x a m : Nat × Nat × Nat}
    (h1 : keyLt x a) (h2 : ¬ keyLt m a) : ¬ keyLt m x := by
  obtain ⟨x1, x2, x3⟩ := x
  obtain ⟨a1, a2, a3⟩ := a
  obtain ⟨m1, m2, m3⟩ := m
  simp only [keyLt] at h1 h2 ⊢
  omega

theorem keyLt_lt_of_ge_of_lt {a x m : Nat × Nat × Nat}
    (h1 : ¬ keyLt x a) (h2 : keyLt x m) : keyLt a m := by
  obtain ⟨a1, a2, a3⟩ := a
  obtain ⟨x1, x2, x3⟩ := x
  obtain ⟨m1, m2, m3⟩ := m
  simp only [keyLt] at h1 h2 ⊢
  omega

theorem pyMax_mem (x : MServer) (xs : List MServer) : pyMax x xs ∈ x :: xs := by
  induction xs generalizing x with
  | nil => simp [pyMax]
  | cons a t ih =>
    have h := ih (if keyLt (lexKey x) (lexKey a) then a else x)
    have hstep : pyMax x (a :: t) =
        pyMax (if keyLt (lexKey x) (lexKey a) then a else x) t := rfl
    rw [hstep]
    rcases List.mem_cons.mp h with h | h
    · rw [h]
      by_cases hk : keyLt (lexKey x) (lexKey a)
      · rw [if_pos hk]; exact List.mem_cons_of_mem x (List.mem_cons_self a t)
      · rw [if_neg hk]; exact List.mem_cons_self x (a :: t)
    · exact List.mem_cons_of_mem x (List.mem_cons_of_mem a h)

theorem pyMax_not_lt (x : MServer) (xs : List MServer) :
    ∀ y ∈ x :: xs, ¬ keyLt (lexKey (pyMax x xs)) (lexKey y) := by
  induction xs generalizing x with
  | nil =>
    intro y hy
    rcases List.mem_cons.mp hy with rfl | h
    · exact keyLt_irrefl _
    · cases h
  | cons a t ih =>
    intro y hy
    have hstep : pyMax x (a :: t) =
        pyMax (if keyLt (lexKey x) (lexKey a) then a else x) t := rfl
    rw [hstep]
    have ihm := ih (if keyLt (lexKey x) (lexKey a) then a else x)
    have ihhead := ihm _ (List.mem_cons_self _ t)
    rcases List.mem_cons.mp hy with hyx | hy
    · rw [hyx]
      by_cases hk : keyLt (lexKey x) (lexKey a)
      · rw [if_pos hk] at ihhead ⊢
        exact keyLt_nlt_of_lt_of_ge hk ihhead
      · rw [if_neg hk] at ihhead ⊢
        exact ihhead
    · rcases List.mem_cons.mp hy with hya | hy
      · rw [hya]
        by_cases hk : keyLt (lexKey x) (lexKey a)
        · rw [if_pos hk] at ihhead ⊢
          exact ihhead
        · rw [if_neg hk] at ihhead ⊢
          exact keyLt_ge_trans hk ihhead
      · exact ihm y (List.mem_cons_of_mem _ hy)

theorem pyMax_first (x : MServer) (xs : List MServer) :
    ∃ l1 l2, x :: xs = l1 ++ (pyMax x xs) :: l2 ∧
      ∀ y ∈ l1, keyLt (lexKey y) (lexKey (pyMax x xs)) := by
  induction xs generalizing x with
  | nil => exact ⟨[], [], rfl, by simp⟩
  | cons a t ih =>
    by_cases hk : keyLt (lexKey x) (lexKey a)
    · have hm : pyMax x (a :: t) = pyMax a t := by
        show pyMax (if keyLt (lexKey x) (lexKey a) then a else x) t = pyMax a t
        rw [if_pos hk]
      obtain ⟨l1, l2, hsplit, hlt⟩ := ih a
      refine ⟨x :: l1, l2, ?_, ?_⟩
      · rw [hm, List.cons_append, ← hsplit]
      · intro y hy
        rw [hm]
        rcases List.mem_cons.mp hy with rfl | hy
        · exact keyLt_lt_of_lt_of_ge hk (pyMax_not_lt a t a (List.mem_cons_self a t))
        · exact hlt y hy
    · have hm : pyMax x (a :: t) = pyMax x t := by
        show pyMax (if keyLt (lexKey x) (lexKey a) then a else x) t = pyMax x t
        rw [if_neg hk]
      obtain ⟨l1, l2, hsplit, hlt⟩ := ih x
      cases l1 with
      | nil =>
        have hx : x = pyMax x t := by
          have := hsplit
          rw [List.nil_append] at this
          exact (List.cons.injEq _ _ _ _).mp this |>.1
        refine ⟨[], a :: t, ?_, by simp⟩
        rw [hm, List.nil_append, ← hx]
      | cons b l1t =>
        have hbt : b = x ∧ t = l1t ++ pyMax x t :: l2 := by
          have := hsplit
          rw [List.cons_append] at this
          have h2 := (List.cons.injEq _ _ _ _).mp this
          exact ⟨h2.1.symm, h2.2⟩
        refine ⟨x :: a :: l1t, l2, ?_, ?_⟩
        · rw [hm, List.cons_append, List.cons_append, ← hbt.2]
        · intro y hy
          have hxl : keyLt (lexKey x) (lexKey (pyMax x t)) := by
            have hxmem : x ∈ b :: l1t := by rw [hbt.1]; exact List.mem_cons_self x l1t
            exact hlt x hxmem
          rw [hm]
          rcases List.mem_cons.mp hy with rfl | hy
          · exact hxl
          · rcases List.mem_cons.mp hy with rfl | hy
            · exact keyLt_lt_of_ge_of_lt hk hxl
            · exact hlt y (List.mem_cons_of_mem b hy)

theorem distinctKeys_mem : ∀ (xs seen : List String) (x : String),
    x ∈ distinctKeys seen xs ↔ (x ∈ xs ∧ x ∉ seen) := by
  intro xs
  induction xs with
  | nil => simp [distinctKeys]
  | cons a t ih =>
    intro seen x
    by_cases ha : a ∈ seen
    · rw [distinctKeys, if_pos ha, ih]
      constructor
      · rintro ⟨h1, h2⟩
        exact ⟨List.mem_cons_of_mem a h1, h2⟩
      · rintro ⟨h1, h2⟩
        rcases List.mem_cons.mp h1 with rfl | h1
        · exact absurd ha h2
        · exact ⟨h1, h2⟩
    · rw [distinctKeys, if_neg ha]
      simp only [List.mem_cons, ih, List.mem_cons]
      by_cases hxa : x = a
      · subst hxa
        simp [ha]
      · simp [hxa]

theorem addToGroups_inv (processed : List MServer)
    (acc : List (String × List MServer)) (s : MServer)
    (h : GroupInv processed acc) : GroupInv (processed ++ [s]) (addToGroups acc s) := by
  obtain ⟨h1, h2, h3⟩ := h
  by_cases hmem : (acc.any fun p => p.1 == s.normalizedName) = true
  · have hkey : s.normalizedName ∈ acc.map Prod.fst := by
      obtain ⟨p, hp, hpe⟩ := List.any_eq_true.mp hmem
      have hpk : p.1 = s.normalizedName := by simpa using hpe
      exact hpk ▸ List.mem_map_of_mem Prod.fst hp
    have hfst : ∀ p : String × List MServer,
        (if p.1 == s.normalizedName then (p.1, p.2 ++ [s]) else p).1 = p.1 := by
      intro p
      by_cases hq : (p.1 == s.normalizedName) = true
      · rw [if_pos hq]
      · rw [if_neg (by simp [hq])]
    have hmap : ((acc.map fun p =>
        if p.1 == s.normalizedName then (p.1, p.2 ++ [s]) else p).map Prod.fst) =
        acc.map Prod.fst := by
      rw [List.map_map]
      exact List.map_congr_left fun p _ => hfst p
    refine ⟨?_, ?_, ?_⟩
    · intro p hp
      rw [addToGroups, if_pos hmem] at hp
      obtain ⟨q, hq, hqe⟩ := List.mem_map.mp hp
      by_cases hqk : (q.1 == s.normalizedName) = true
      · rw [if_pos hqk] at hqe
        have hq1 : q.1 = s.normalizedName := by simpa using hqk
        rw [← hqe]
        show q.2 ++ [s] = (processed ++ [s]).filter (fun x => x.normalizedName == q.1)
        rw [List.filter_append, ← h1 q hq]
        have hsf : [s].filter (fun x => x.normalizedName == q.1) = [s] := by
          simp [hq1]
        rw [hsf]
      · rw [if_neg (by simp [hqk])] at hqe
        rw [← hqe]
        show q.2 = (processed ++ [s]).filter (fun x => x.normalizedName == q.1)
        rw [List.filter_append, ← h1 q hq]
        have hq1 : ¬ q.1 = s.normalizedName := by simpa using hqk
        have hne : s.normalizedName ≠ q.1 := fun hc => hq1 hc.symm
        have hsf : [s].filter (fun x => x.normalizedName == q.1) = [] := by
          simp [hne]
        rw [hsf, List.append_nil]
    · rw [addToGroups, if_pos hmem, hmap]
      exact h2
    · intro k
      rw [addToGroups, if_pos hmem, hmap, List.map_append]
      constructor
      · intro hk
        exact List.mem_append_left _ ((h3 k).mp hk)
      · intro hk
        rcases List.mem_append.mp hk with hk | hk
        · exact (h3 k).mpr hk
        · have : k = s.normalizedName := by simpa using hk
          rw [this]
          exact hkey
  · have hkey : s.normalizedName ∉ acc.map Prod.fst := by
      intro hc
      obtain ⟨p, hp, hpe⟩ := List.mem_map.mp hc
      have : (acc.any fun p => p.1 == s.normalizedName) = true :=
        List.any_eq_true.mpr ⟨p, hp, by simp [hpe]⟩
      exact hmem this
    refine ⟨?_, ?_, ?_⟩
    · intro p hp
      rw [addToGroups, if_neg hmem] at hp
      rcases List.mem_append.mp hp with hp | hp
      · rw [List.filter_append, ← h1 p hp]
        have hpk : p.1 ≠ s.normalizedName := by
          intro hc
          exact hkey (hc ▸ List.mem_map_of_mem Prod.fst hp)
        have hsf : [s].filter (fun x => x.normalizedName == p.1) = [] := by
          have : ¬ s.normalizedName = p.1 := fun hc => hpk (hc.symm)
          simp [this]
        rw [hsf, List.append_nil]
      · have hpe : p = (s.normalizedName, [s]) := by simpa using hp
        rw [hpe]
        show [s] = (processed ++ [s]).filter (fun x => x.normalizedName == s.normalizedName)
        rw [List.filter_append]
        have hpf : processed.filter (fun x => x.normalizedName == s.normalizedName) = [] := by
          rw [List.filter_eq_nil_iff]
          intro x hx
          have hnot : s.normalizedName ∉ processed.map (·.normalizedName) :=
            fun hc => hkey ((h3 _).mpr hc)
          intro hc
          have hxe : x.normalizedName = s.normalizedName := by simpa using hc
          exact hnot (hxe ▸ List.mem_map_of_mem (·.normalizedName) hx)
        rw [hpf]
        simp
    · rw [addToGroups, if_neg hmem, List.map_append]
      simp only [List.map_cons, List.map_nil]
      rw [List.nodup_append]
      refine ⟨h2, List.nodup_singleton _, ?_⟩
      intro k hk hvc
      have hke : k = s.normalizedName := by simpa using hvc
      exact hkey (hke ▸ hk)
    · intro k
      rw [addToGroups, if_neg hmem, List.map_append, List.map_append]
      simp only [List.mem_append, List.map_cons, List.map_nil, List.mem_singleton]
      rw [h3 k]

theorem groupAux_inv : ∀ (l processed : List MServer)
    (acc : List (String × List MServer)), GroupInv processed acc →
    GroupInv (processed ++ l) (l.foldl addToGroups acc) := by
  intro l
  induction l with
  | nil =>
    intro processed acc h
    simpa using h
  | cons s t ih =>
    intro processed acc h
    have h2 := addToGroups_inv processed acc s h
    have h3 := ih (processed ++ [s]) (addToGroups acc s) h2
    rw [List.foldl_cons]
    have : processed ++ [s] ++ t = processed ++ s :: t := by
      rw [List.append_assoc]
      rfl
    rw [this] at h3
    exact h3

theorem groupByName_inv (l : List MServer) : GroupInv l (groupByName l) := by
  have h := groupAux_inv l [] [] ⟨by simp, by simp, by simp⟩
  simpa [groupByName] using h

theorem group_mem_name (l : List MServer) (p : String × List MServer)
    (hp : p ∈ groupByName l) : ∀ x ∈ p.2, x.normalizedName = p.1 := by
  have h1 := (groupByName_inv l).1 p hp
  intro x hx
  rw [h1] at hx
  have h := List.mem_filter.mp hx
  simpa using h.2

theorem group_ne_nil (l : List MServer) (p : String × List MServer)
    (hp : p ∈ groupByName l) : p.2 ≠ [] := by
  obtain ⟨h1, h2, h3⟩ := groupByName_inv l
  have hk : p.1 ∈ (groupByName l).map Prod.fst := List.mem_map_of_mem Prod.fst hp
  have hn : p.1 ∈ l.map (·.normalizedName) := (h3 p.1).mp hk
  obtain ⟨x, hx, hxe⟩ := List.mem_map.mp hn
  have hxm : x ∈ p.2 := by
    rw [h1 p hp]
    exact List.mem_filter.mpr ⟨hx, by simp [hxe]⟩
  intro hc
  rw [hc] at hxm
  cases hxm

theorem dedupGroup_shape (g : List MServer) (hne : g ≠ []) :
    ∃ w, dedupGroup g = [w] ∧ ∃ x ∈ g, w.normalizedName = x.normalizedName := by
  match g with
  | [s] => exact ⟨s, rfl, s, by simp, rfl⟩
  | s :: s2 :: rest =>
    exact ⟨_, rfl, pyMax s (s2 :: rest), pyMax_mem s (s2 :: rest), rfl⟩

theorem dedup_names (l : List MServer) :
    (deduplicateServers l).map (·.normalizedName) = (groupByName l).map Prod.fst := by
  have haux : ∀ gs : List (String × List MServer),
      (∀ p ∈ gs, p.2 ≠ [] ∧ ∀ x ∈ p.2, x.normalizedName = p.1) →
      ((gs.flatMap fun p => dedupGroup p.2).map (·.normalizedName)) = gs.map Prod.fst := by
    intro gs
    induction gs with
    | nil => intro _; simp
    | cons p t ih =>
      intro h
      obtain ⟨hne, hall⟩ := h p (List.mem_cons_self p t)
      obtain ⟨w, hw, x, hx, hwx⟩ := dedupGroup_shape p.2 hne
      rw [List.flatMap_cons, List.map_append, hw,
        ih (fun q hq => h q (List.mem_cons_of_mem p hq))]
      simp only [List.map_cons, List.map_nil, List.singleton_append, List.map_cons]
      rw [hwx, hall x hx]
  have h := haux (groupByName l)
    (fun p hp => ⟨group_ne_nil l p hp, group_mem_name l p hp⟩)
  simpa [deduplicateServers] using h

/-- C2. For every input list of records, deduplication yields exactly one
output record per distinct normalized identity (distinct names, and exactly
the input's names); and every output whose identity group has two or more
members is the group's maximum under the lexicographic order on tool count,
source priority and the latest flag, ties resolved in favour of the earliest
input position, tagged with the distinct contributing sources of the whole
group (as a set, all group members' sources) and with the group size as its
duplicate count. -/
theorem deduplicateServers_correct (l : List MServer) :
    ((deduplicateServers l).map (·.normalizedName)).Nodup ∧
    (∀ k, k ∈ (deduplicateServers l).map (·.normalizedName) ↔
      k ∈ l.map (·.normalizedName)) ∧
    (∀ r ∈ deduplicateServers l,
      2 ≤ (l.filter (fun s => s.normalizedName == r.normalizedName)).length →
      ∃ w l1 l2,
        l.filter (fun s => s.normalizedName == r.normalizedName) = l1 ++ w :: l2 ∧
        (∀ s ∈ l1, keyLt (lexKey s) (lexKey w)) ∧
        (∀ s ∈ l.filter (fun s => s.normalizedName == r.normalizedName),
          ¬ keyLt (lexKey w) (lexKey s)) ∧
        r = { w with
          sourcesOpt := some (groupSources
            (l.filter (fun s => s.normalizedName == r.normalizedName))),
          duplicateCountOpt := some
            (l.filter (fun s => s.normalizedName == r.normalizedName)).length } ∧
        (∀ src, src ∈ groupSources
            (l.filter (fun s => s.normalizedName == r.normalizedName)) ↔
          ∃ s ∈ l, s.normalizedName = r.normalizedName ∧ s.source = src)) := by
  obtain ⟨h1, h2, h3⟩ := groupByName_inv l
  have hnames := dedup_names l
  refine ⟨?_, ?_, ?_⟩
  · rw [hnames]
    exact h2
  · intro k
    rw [hnames]
    exact h3 k
  · intro r hr hlen
    obtain ⟨p, hp, hrp⟩ := List.mem_flatMap.mp hr
    have hpn := group_mem_name l p hp
    have hflt := h1 p hp
    have hgne := group_ne_nil l p hp
    cases hps : p.2 with
    | nil => exact absurd hps hgne
    | cons s tail =>
      cases tail with
      | nil =>
        rw [hps] at hrp
        have hrs : r = s := by simpa [dedupGroup] using hrp
        have hrn : r.normalizedName = p.1 := by
          rw [hrs]
          exact hpn s (by rw [hps]; exact List.mem_cons_self s [])
        have hfe : l.filter (fun x => x.normalizedName == r.normalizedName) = [s] := by
          rw [hrn, ← hflt, hps]
        rw [hfe] at hlen
        simp at hlen
      | cons s2 rest =>
        rw [hps] at hrp
        have hreq : r = { pyMax s (s2 :: rest) with
            sourcesOpt := some (groupSources (s :: s2 :: rest)),
            duplicateCountOpt := some (s :: s2 :: rest).length } := by
          simpa [dedupGroup] using hrp
        have hwmem : pyMax s (s2 :: rest) ∈ s :: s2 :: rest := pyMax_mem s (s2 :: rest)
        have hrn : r.normalizedName = p.1 := by
          rw [hreq]
          show (pyMax s (s2 :: rest)).normalizedName = p.1
          exact hpn (pyMax s (s2 :: rest)) (by rw [hps]; exact hwmem)
        have hfe : l.filter (fun x => x.normalizedName == r.normalizedName) =
            s :: s2 :: rest := by
          rw [hrn, ← hflt, hps]
        obtain ⟨l1, l2, hsplit, hfirst⟩ := pyMax_first s (s2 :: rest)
        refine ⟨pyMax s (s2 :: rest), l1, l2, ?_, ?_, ?_, ?_, ?_⟩
        · rw [hfe]
          exact hsplit
        · exact hfirst
        · intro x hx
          rw [hfe] at hx
          exact pyMax_not_lt s (s2 :: rest) x hx
        · rw [hfe]
          exact hreq
        · intro src
          rw [hfe, groupSources, distinctKeys_mem]
          simp only [List.not_mem_nil, not_false_eq_true, and_true, List.mem_map]
          constructor
          · rintro ⟨x, hx, hxe⟩
            have hxf : x ∈ l.filter (fun y => y.normalizedName == r.normalizedName) := by
              rw [hfe]
              exact hx
            have hxm := List.mem_filter.mp hxf
            exact ⟨x, hxm.1, by simpa using hxm.2, hxe⟩
          · rintro ⟨x, hx, hxn, hxe⟩
            refine ⟨x, ?_, hxe⟩
            have hxf : x ∈ l.filter (fun y => y.normalizedName == r.normalizedName) :=
              List.mem_filter.mpr ⟨hx, by simp [hxn]⟩
            rw [hfe] at hxf
            exact hxf

/-- C2 witness. Concrete pair of records sharing an identity and tool count:
the higher-priority record wins, carrying both sources and a duplicate count
of two. -/
theorem deduplicateServers_correct_witness :
    deduplicateServers [dupServerA, dupServerB] = [dupWinner] ∧
    dupWinner ∈ deduplicateServers [dupServerA, dupServerB] ∧
    2 ≤ (([dupServerA, dupServerB]).filter
      (fun s => s.normalizedName == dupWinner.normalizedName)).length ∧
    (∃ w l1 l2,
      ([dupServerA, dupServerB]).filter
        (fun s => s.normalizedName == dupWinner.normalizedName) = l1 ++ w :: l2 ∧
      (∀ s ∈ l1, keyLt (lexKey s) (lexKey w)) ∧
      (∀ s ∈ ([dupServerA, dupServerB]).filter
          (fun s => s.normalizedName == dupWinner.normalizedName),
        ¬ keyLt (lexKey w) (lexKey s)) ∧
      dupWinner = { w with
        sourcesOpt := some (groupSources
          (([dupServerA, dupServerB]).filter
            (fun s => s.normalizedName == dupWinner.normalizedName))),
        duplicateCountOpt := some
          (([dupServerA, dupServerB]).filter
            (fun s => s.normalizedName == dupWinner.normalizedName)).length } ∧
      (∀ src, src ∈ groupSources
          (([dupServerA, dupServerB]).filter
            (fun s => s.normalizedName == dupWinner.normalizedName)) ↔
        ∃ s ∈ [dupServerA, dupServerB],
          s.normalizedName = dupWinner.normalizedName ∧ s.source = src)) :=
  ⟨by decide, by decide, by decide,
    (deduplicateServers_correct [dupServerA, dupServerB]).2.2 dupWinner
      (by decide) (by decide)⟩

end MergeRegistries
